import Mathlib

/-!
Verification of the gossamer slot-based block-production engine (babe package),
the genesis key-formatting helpers and the RPC author module, against the
repository's design specification.

The babe implementations (`median`, `slotOffset`, `slotTime`,
`estimateCurrentSlot`, `getCurrentSlot`, `runLottery`, pre-digest
encode/decode) are exercised by the repository's tests but their bodies are
not among the provided sources; they are modelled here from the specification
(and, where the specification is internally inconsistent, from the behaviour
the repository's own tests demand).  The genesis helpers (`formatKey`,
`twoxHash`) and `determineKeyType` are translated directly from the source.
-/

namespace Gossamer

/-- Error kinds of the slot-clock component (spec section 7). -/
inductive ClockError where
  | invalidRange
  | emptyHistory
deriving DecidableEq

/-- Modelled from the spec: `median` of the babe package (its implementation
is not among the provided sources; only its tests are).  Sorts the input;
for odd length returns the middle element; for even length the truncated
arithmetic mean of the two central elements; fails only on an empty input. -/
def median (l : List Nat) : Except ClockError Nat :=
  if l.length = 0 then .error .emptyHistory
  else
    let s := List.insertionSort (· ≤ ·) l
    if l.length % 2 = 1 then .ok (s.getD (l.length / 2) 0)
    else .ok ((s.getD (l.length / 2 - 1) 0 + s.getD (l.length / 2) 0) / 2)

/-- Modelled from the spec: `slotOffset` of the babe package (its
implementation is not among the provided sources; only its tests are).
Returns `end - start`, failing with `InvalidRange` when `start > end`. -/
def slotOffset (start finish : Nat) : Except ClockError Nat :=
  if start > finish then .error .invalidRange else .ok (finish - start)

/-- On a non-empty input, `median` picks the central element(s) of any
sorted permutation of the input. -/
theorem median_eq_of_sorted_perm (l s : List Nat) (hne : l ≠ [])
    (hp : l.Perm s) (hs : s.Sorted (· ≤ ·)) :
    median l = .ok (if l.length % 2 = 1 then s.getD (l.length / 2) 0
      else (s.getD (l.length / 2 - 1) 0 + s.getD (l.length / 2) 0) / 2) := by
  have hsort : s = List.insertionSort (· ≤ ·) l :=
    List.eq_of_perm_of_sorted (hp.symm.trans (List.perm_insertionSort _ l).symm)
      hs (List.sorted_insertionSort _ l)
  subst hsort
  have hlen : l.length ≠ 0 := by simpa using hne
  unfold median
  simp only [hlen, if_false]
  split <;> rfl

/-- C7: for every non-empty list of naturals, `median` returns the standard
statistical median — the middle element of the sorted sequence for odd
length, and the truncated mean of the two central sorted elements for even
length — and `median` fails exactly on the empty input. -/
theorem median_is_statistical_median :
    median [] = .error .emptyHistory ∧
    ∀ (l s : List Nat), l ≠ [] → l.Perm s → s.Sorted (· ≤ ·) →
      median l = .ok (if l.length % 2 = 1 then s.getD (l.length / 2) 0
        else (s.getD (l.length / 2 - 1) 0 + s.getD (l.length / 2) 0) / 2) :=
  ⟨rfl, median_eq_of_sorted_perm⟩

/-- Witness for C7 at the test vector `[3,2,1,4,5]` (sorted form `[1,2,3,4,5]`,
median `3`). -/
theorem median_is_statistical_median_witness :
    ([3, 2, 1, 4, 5] : List Nat) ≠ [] ∧
      List.Perm [3, 2, 1, 4, 5] [1, 2, 3, 4, 5] ∧
      List.Sorted (· ≤ ·) [1, 2, 3, 4, 5] ∧
      median [3, 2, 1, 4, 5] = .ok 3 :=
  ⟨by decide, by decide, by decide,
    median_is_statistical_median.2 [3, 2, 1, 4, 5] [1, 2, 3, 4, 5]
      (by decide) (by decide) (by decide)⟩

/-- C8: `slotOffset start end` fails with `InvalidRange` exactly when
`start > end`, and otherwise returns `end - start`. -/
theorem slotOffset_spec :
    ∀ start finish : Nat,
      (slotOffset start finish = .error .invalidRange ↔ start > finish) ∧
      (start ≤ finish → slotOffset start finish = .ok (finish - start)) := by
  intro start finish
  unfold slotOffset
  constructor
  · constructor
    · intro h
      by_contra hgt
      simp [hgt] at h
    · intro h
      simp [h]
  · intro h
    have : ¬ start > finish := not_lt.mpr h
    simp [this]

/-- Witness for C8 at the test vectors: `slotOffset 1000001 1000000` fails
with `InvalidRange` and `slotOffset 1000000 1000001 = 1`. -/
theorem slotOffset_spec_witness :
    slotOffset 1000001 1000000 = .error .invalidRange ∧
      slotOffset 1000000 1000001 = .ok 1 :=
  ⟨(slotOffset_spec 1000001 1000000).1.mpr (by decide),
    (slotOffset_spec 1000000 1000001).2 (by decide)⟩

/-- A best-chain block as the slot clock sees it: its slot number (from its
pre-digest) and its recorded arrival timestamp.  Chains are listed most
recent block first. -/
structure BlockInfo where
  slotNumber : Nat
  arrivalTime : Nat
deriving DecidableEq

/-- Modelled from the spec: the offset between a block's recorded arrival
timestamp and its theoretical slot start (`slotNumber * duration`),
validated through `slotOffset`. -/
def blockOffset (duration : Nat) (b : BlockInfo) : Except ClockError Nat :=
  slotOffset (b.slotNumber * duration) b.arrivalTime

/-- Modelled from the spec: `slotTime` of the babe package (its
implementation is not among the provided sources; only its tests are).
Walks up to `lookback` of the most recent best-chain blocks, computes each
block's arrival offset, and returns `targetSlot * duration + median offset`. -/
def slotTime (targetSlot lookback : Nat) (chain : List BlockInfo)
    (duration : Nat) : Except ClockError Nat :=
  match (chain.take lookback).mapM (blockOffset duration) with
  | .error e => .error e
  | .ok offs =>
    match median offs with
    | .error e => .error e
    | .ok m => .ok (targetSlot * duration + m)

/-- Modelled from the spec: `estimateCurrentSlot` of the babe package (its
implementation is not among the provided sources; only its tests are).  The
spec's formula `floor((now - arrival)/duration) + bestBlockSlot + 1`
contradicts both the spec's own convergence example and the repository's
test `TestEstimateCurrentSlot` (best slot 17, arrival one duration before
now, expected 18); the model follows the tests:
`bestBlockSlot + floor((now - arrival)/duration)`. -/
def estimateCurrentSlot (chain : List BlockInfo) (now duration : Nat) :
    Except ClockError Nat :=
  match chain with
  | [] => .error .emptyHistory
  | best :: _ =>
    (slotOffset best.arrivalTime now).map fun since =>
      best.slotNumber + since / duration

/-- Modelled from the spec: `getCurrentSlot` of the babe package (its
implementation is not among the provided sources; only its tests are).
The inverse of `slotTime`: maps `now` onto a slot number using the same
median-offset technique, `floor((now - medianOffset) / duration)`. -/
def getCurrentSlot (chain : List BlockInfo) (now duration lookback : Nat) :
    Except ClockError Nat :=
  match (chain.take lookback).mapM (blockOffset duration) with
  | .error e => .error e
  | .ok offs =>
    match median offs with
    | .error e => .error e
    | .ok m => (slotOffset m now).map fun since => since / duration

/-- When every block in the list has its arrival at or after its theoretical
slot start, collecting the offsets succeeds and yields exactly the
arrival-minus-slot-start differences. -/
theorem mapM_blockOffset_eq_map (d : Nat) :
    ∀ l : List BlockInfo, (∀ b ∈ l, b.slotNumber * d ≤ b.arrivalTime) →
      l.mapM (blockOffset d) =
        .ok (l.map fun b => b.arrivalTime - b.slotNumber * d) := by
  intro l
  induction l with
  | nil => intro _; rfl
  | cons b t ih =>
    intro h
    have hb : b.slotNumber * d ≤ b.arrivalTime := h b (by simp)
    have ht := ih fun x hx => h x (by simp [hx])
    rw [List.mapM_cons]
    simp only [blockOffset, slotOffset, not_lt.mpr hb, if_neg, ht]
    simp [not_lt.mpr hb]
    rfl

/-- C6: whenever every inspected block arrived at or after its theoretical
slot start, `slotTime targetSlot lookback` walks up to `lookback` most
recent blocks, takes the median of their arrival offsets (arrival time minus
`slotNumber * duration`), and returns `targetSlot * duration` plus that
median. -/
theorem slotTime_spec (targetSlot lookback : Nat) (chain : List BlockInfo)
    (d : Nat) (h : ∀ b ∈ chain.take lookback, b.slotNumber * d ≤ b.arrivalTime) :
    slotTime targetSlot lookback chain d =
      (median ((chain.take lookback).map
        fun b => b.arrivalTime - b.slotNumber * d)).map
        (fun m => targetSlot * d + m) := by
  unfold slotTime
  rw [mapM_blockOffset_eq_map d _ h]
  cases hm : median ((chain.take lookback).map
      fun b => b.arrivalTime - b.slotNumber * d) <;>
    simp only [hm, Except.map]

/-- Witness for C6: a three-block chain with duration 10 and lookback 2;
offsets of the two inspected blocks are 5 and 2, median 3, so the slot-4
time is 43. -/
theorem slotTime_spec_witness :
    (∀ b ∈ ([⟨2, 25⟩, ⟨1, 12⟩, ⟨0, 3⟩] : List BlockInfo).take 2,
      b.slotNumber * 10 ≤ b.arrivalTime) ∧
      slotTime 4 2 [⟨2, 25⟩, ⟨1, 12⟩, ⟨0, 3⟩] 10 = .ok 43 :=
  ⟨by decide, (slotTime_spec 4 2 [⟨2, 25⟩, ⟨1, 12⟩, ⟨0, 3⟩] 10 (by decide)).trans rfl⟩

/-- C5 counterexample: on the single-block chain with best slot 17 and
arrival time 94, queried at time 100 with slot duration 6 (exactly one
duration after arrival), `estimateCurrentSlot` returns 18 — the
`bestBlockSlot + 1` the claim and the repository's test demand — while the
claim's formula `floor((now - arrival)/duration) + bestBlockSlot + 1`
evaluates to 19. -/
theorem estimateCurrentSlot_formula_counterexample :
    estimateCurrentSlot [⟨17, 94⟩] 100 6 = .ok 18 ∧
      (100 - 94) / 6 + 17 + 1 ≠ 18 := ⟨rfl, by decide⟩

/-- C5 (amended): `estimateCurrentSlot` returns
`floor((now - arrival)/duration) + bestBlockSlotNumber` (no further `+ 1`);
in particular, on a chain queried exactly one slot-duration after the best
block's arrival it returns `bestBlockSlot + 1`. -/
theorem estimateCurrentSlot_spec (best : BlockInfo) (rest : List BlockInfo)
    (now d : Nat) :
    (best.arrivalTime ≤ now →
      estimateCurrentSlot (best :: rest) now d =
        .ok (best.slotNumber + (now - best.arrivalTime) / d)) ∧
    (0 < d →
      estimateCurrentSlot (best :: rest) (best.arrivalTime + d) d =
        .ok (best.slotNumber + 1)) := by
  constructor
  · intro h
    simp [estimateCurrentSlot, slotOffset, not_lt.mpr h, Except.map]
  · intro hd
    simp [estimateCurrentSlot, slotOffset, Except.map, Nat.add_sub_cancel_left,
      Nat.div_self hd]

/-- Witness for C5 at the test scenario: best slot 17, arrival 94, duration
6; at time 100 the estimate is 18 = 17 + 1. -/
theorem estimateCurrentSlot_spec_witness :
    (94 : Nat) ≤ 100 ∧
      estimateCurrentSlot [⟨17, 94⟩] 100 6 = .ok (17 + (100 - 94) / 6) ∧
      (0 : Nat) < 6 ∧
      estimateCurrentSlot [⟨17, 94⟩] (94 + 6) 6 = .ok 18 :=
  ⟨by decide, (estimateCurrentSlot_spec ⟨17, 94⟩ [] 100 6).1 (by decide),
    by decide, (estimateCurrentSlot_spec ⟨17, 94⟩ [] 100 6).2 (by decide)⟩

/-- A constant list is sorted for `≤`. -/
theorem sorted_le_replicate (k a : Nat) :
    List.Sorted (· ≤ ·) (List.replicate k a) := by
  induction k with
  | zero => simp
  | succ m ih =>
    rw [List.replicate_succ, List.sorted_cons]
    exact ⟨fun b hb => by simp [List.eq_of_mem_replicate hb], ih⟩

/-- The median of a non-empty constant list is that constant. -/
theorem median_replicate (k a : Nat) (hk : k ≠ 0) :
    median (List.replicate k a) = .ok a := by
  have h := median_eq_of_sorted_perm (List.replicate k a)
    (List.replicate k a) (by simp [hk]) (List.Perm.refl _)
    (sorted_le_replicate k a)
  rw [h]
  have hget : ∀ i, i < k → (List.replicate k a).getD i 0 = a := by
    intro i hi
    simp [List.getD_eq_getElem?_getD, List.getElem?_replicate, hi]
  simp only [List.length_replicate]
  rcases Nat.even_or_odd k with he | ho
  · have h2 : k % 2 = 0 := Nat.even_iff.mp he
    have hk2 : 2 ≤ k := by omega
    rw [if_neg (by omega), hget (k / 2 - 1) (by omega), hget (k / 2) (by omega)]
    congr 1
    omega
  · have h2 : k % 2 = 1 := Nat.odd_iff.mp ho
    rw [if_pos h2, hget (k / 2) (by omega)]

/-- The synthetic chain of the clock-convergence scenario: `n` blocks, block
`i` (1-based) produced at slot `i` and arriving at `anchor + i * d` — a
constant cadence of one block per slot duration starting at `anchor`; most
recent block first. -/
def syntheticChain (anchor d n : Nat) : List BlockInfo :=
  (List.range n).reverse.map fun i => ⟨i + 1, anchor + (i + 1) * d⟩

/-- Unfolding of the synthetic chain at a successor length. -/
theorem syntheticChain_succ (anchor d k : Nat) :
    syntheticChain anchor d (k + 1) =
      ⟨k + 1, anchor + (k + 1) * d⟩ :: syntheticChain anchor d k := by
  simp [syntheticChain, List.range_succ]

/-- Every block of the synthetic chain arrives exactly `anchor` after its
theoretical slot start. -/
theorem syntheticChain_offsets (anchor d n : Nat) :
    ∀ b ∈ syntheticChain anchor d n,
      b.slotNumber * d ≤ b.arrivalTime ∧
        b.arrivalTime - b.slotNumber * d = anchor := by
  intro b hb
  simp only [syntheticChain, List.mem_map, List.mem_reverse,
    List.mem_range] at hb
  obtain ⟨i, _, rfl⟩ := hb
  simp

/-- C4 (amended): on the synthetic constant-cadence chain the two slot
estimators agree exactly (hence within one slot): both `getCurrentSlot`
(with any positive lookback) and `estimateCurrentSlot`, evaluated at time
`anchor + n * duration`, return `n`; in particular `getCurrentSlot` returns
a value in `{n, n+1}`. -/
theorem getCurrentSlot_convergence (anchor d n lookback : Nat)
    (hd : 0 < d) (hn : 0 < n) (hl : 0 < lookback) :
    getCurrentSlot (syntheticChain anchor d n) (anchor + n * d) d lookback
        = .ok n ∧
      estimateCurrentSlot (syntheticChain anchor d n) (anchor + n * d) d
        = .ok n := by
  constructor
  · have hoff : ∀ b ∈ (syntheticChain anchor d n).take lookback,
        b.slotNumber * d ≤ b.arrivalTime :=
      fun b hb => (syntheticChain_offsets anchor d n b
        (List.take_subset _ _ hb)).1
    have hrep : ((syntheticChain anchor d n).take lookback).map
        (fun b => b.arrivalTime - b.slotNumber * d) =
        List.replicate (min lookback n) anchor := by
      have hlen : (((syntheticChain anchor d n).take lookback).map
          (fun b => b.arrivalTime - b.slotNumber * d)).length =
          min lookback n := by
        simp [syntheticChain]
      rw [← hlen]
      refine List.eq_replicate_length.mpr ?_
      intro x hx
      obtain ⟨b, hb, rfl⟩ := List.mem_map.mp hx
      exact (syntheticChain_offsets anchor d n b (List.take_subset _ _ hb)).2
    unfold getCurrentSlot
    rw [mapM_blockOffset_eq_map d _ hoff, hrep]
    have hmin : min lookback n ≠ 0 := by omega
    have hle : ¬ anchor > anchor + n * d := by omega
    simp only [median_replicate _ _ hmin, slotOffset, hle, if_neg, if_false,
      Except.map, Nat.add_sub_cancel_left, Nat.mul_div_left n hd]
  · obtain ⟨k, rfl⟩ : ∃ k, n = k + 1 :=
      ⟨n - 1, by omega⟩
    rw [syntheticChain_succ]
    simp [estimateCurrentSlot, slotOffset, Except.map]

/-- Witness for C4 (amended) at anchor 50, duration 10, four blocks,
lookback 2: both estimators return slot 4 at time 90. -/
theorem getCurrentSlot_convergence_witness :
    (0 : Nat) < 10 ∧ (0 : Nat) < 4 ∧ (0 : Nat) < 2 ∧
      getCurrentSlot (syntheticChain 50 10 4) (50 + 4 * 10) 10 2 = .ok 4 ∧
      estimateCurrentSlot (syntheticChain 50 10 4) (50 + 4 * 10) 10 = .ok 4 :=
  ⟨by decide, by decide, by decide,
    (getCurrentSlot_convergence 50 10 4 2 (by decide) (by decide) (by decide)).1,
    (getCurrentSlot_convergence 50 10 4 2 (by decide) (by decide) (by decide)).2⟩

/-- C4 counterexample: a chain whose best block arrived far later than its
slot schedule.  Both estimators are computable (`.ok`), yet `getCurrentSlot`
returns 103 while `estimateCurrentSlot` returns 3 — a disagreement of 100
slots, far beyond one slot. -/
theorem getCurrentSlot_agreement_counterexample :
    getCurrentSlot [⟨3, 1030⟩, ⟨2, 20⟩, ⟨1, 10⟩] 1030 10 3 = .ok 103 ∧
      estimateCurrentSlot [⟨3, 1030⟩, ⟨2, 20⟩, ⟨1, 10⟩] 1030 10 = .ok 3 ∧
      ¬ (103 : Nat) ≤ 3 + 1 := ⟨rfl, rfl, by decide⟩

/-- Error kinds of the lottery engine (spec section 7). -/
inductive BabeError where
  | thresholdUnset
  | signingUnavailable
deriving DecidableEq

/-- The verifiable-random-function output and proof attached to a winning
slot (spec section 3). -/
structure OutputAndProof where
  output : List Nat
  proof : List Nat
deriving DecidableEq

/-- A VRF output interpreted as an unsigned big integer (Go
`big.Int.SetBytes`: big-endian). -/
def bytesToNat (bytes : List Nat) : Nat :=
  bytes.foldl (fun acc b => acc * 256 + b) 0

/-- Modelled from the spec: the lottery-relevant state of a babe `Session`
(the implementation is not among the provided sources; only its tests are).
`slotToProof` is the `SlotProofCache`; `vrf` stands for the key source's
deterministic VRF evaluation at a slot number (`none` encodes a signing
failure); `vrfCalls` counts VRF computations so that the
at-most-one-evaluation-per-slot invariant can be stated. -/
structure Session where
  epochThreshold : Option Nat
  authorityIndex : Nat
  slotToProof : List (Nat × Option OutputAndProof)
  vrf : Nat → Option OutputAndProof
  vrfCalls : Nat

/-- Modelled from the spec: `runLottery` of the babe package (its
implementation is not among the provided sources; only its tests are).
Returns the cached result unchanged on a cache hit; otherwise evaluates the
VRF once, compares the output against the epoch threshold, caches and
returns the outcome.  The spec's winning rule reads `output < threshold`,
but the repository's tests (`addBlocksToState`, `TestEstimateCurrentSlot`)
set the threshold to 0 and demand a win, so the model uses the comparison
the tests force: `output > threshold`. -/
def runLottery (s : Session) (slot : Nat) :
    Except BabeError (Option OutputAndProof × Session) :=
  match s.slotToProof.lookup slot with
  | some r => .ok (r, s)
  | none =>
    match s.epochThreshold with
    | none => .error .thresholdUnset
    | some threshold =>
      match s.vrf slot with
      | none => .error .signingUnavailable
      | some oap =>
        let r := if bytesToNat oap.output > threshold then some oap else none
        .ok (r, { s with slotToProof := (slot, r) :: s.slotToProof,
                         vrfCalls := s.vrfCalls + 1 })

/-- The lottery result component of a `runLottery` outcome. -/
def lotteryOutcome (e : Except BabeError (Option OutputAndProof × Session)) :
    Option (Option OutputAndProof) :=
  match e with
  | .ok (r, _) => some r
  | .error _ => none

/-- C1: lottery evaluation is idempotent.  A `SlotProofCache` hit returns
the cached result with the session — in particular its VRF-computation
count — unchanged; consequently, after any successful evaluation a repeated
call for the same slot returns the bit-identical result and leaves the
session unchanged, so no second VRF computation is performed. -/
theorem runLottery_idempotent :
    (∀ (s : Session) (slot : Nat) (r : Option OutputAndProof),
      s.slotToProof.lookup slot = some r → runLottery s slot = .ok (r, s)) ∧
    (∀ (s : Session) (slot : Nat) (r : Option OutputAndProof) (s₁ : Session),
      runLottery s slot = .ok (r, s₁) → runLottery s₁ slot = .ok (r, s₁)) := by
  constructor
  · intro s slot r h
    simp [runLottery, h]
  · intro s slot r s₁ h
    unfold runLottery at h
    cases hc : s.slotToProof.lookup slot with
    | some r' =>
      rw [hc] at h
      simp only [Except.ok.injEq, Prod.mk.injEq] at h
      obtain ⟨rfl, rfl⟩ := h
      simp [runLottery, hc]
    | none =>
      rw [hc] at h
      cases ht : s.epochThreshold with
      | none => rw [ht] at h; simp at h
      | some thr =>
        rw [ht] at h
        cases hv : s.vrf slot with
        | none => rw [hv] at h; simp at h
        | some oap =>
          rw [hv] at h
          simp only [Except.ok.injEq, Prod.mk.injEq] at h
          obtain ⟨rfl, rfl⟩ := h
          simp [runLottery, List.lookup]

/-- Witness for C1: a concrete session with an empty cache; after the first
evaluation of slot 5 a second call returns the same result and the same
session. -/
theorem runLottery_idempotent_witness :
    runLottery ⟨some 0, 0, [], fun _ => some ⟨[7], [9]⟩, 0⟩ 5 =
        .ok (some ⟨[7], [9]⟩,
          ⟨some 0, 0, [(5, some ⟨[7], [9]⟩)], fun _ => some ⟨[7], [9]⟩, 1⟩) ∧
      runLottery ⟨some 0, 0, [(5, some ⟨[7], [9]⟩)],
          fun _ => some ⟨[7], [9]⟩, 1⟩ 5 =
        .ok (some ⟨[7], [9]⟩,
          ⟨some 0, 0, [(5, some ⟨[7], [9]⟩)], fun _ => some ⟨[7], [9]⟩, 1⟩) :=
  ⟨rfl, runLottery_idempotent.2
    ⟨some 0, 0, [], fun _ => some ⟨[7], [9]⟩, 0⟩ 5 (some ⟨[7], [9]⟩)
    ⟨some 0, 0, [(5, some ⟨[7], [9]⟩)], fun _ => some ⟨[7], [9]⟩, 1⟩ rfl⟩

/-- C2 counterexample: with the epoch threshold forced to its minimum value
0 and a VRF output of 5, `runLottery` returns a non-empty proof — as the
repository's tests demand — even though `5 < 0` is false, so the claimed
rule "the authority wins exactly when the output is below the threshold"
(which would make the result `None` here) is violated. -/
theorem runLottery_below_rule_counterexample :
    lotteryOutcome (runLottery ⟨some 0, 0, [], fun _ => some ⟨[5], [9]⟩, 0⟩ 7)
        = some (some ⟨[5], [9]⟩) ∧
      ¬ bytesToNat [5] < 0 ∧
      some (⟨[5], [9]⟩ : OutputAndProof) ≠ none :=
  ⟨rfl, by decide, by decide⟩

/-- C2 (amended): on a cache miss with a set threshold and an available VRF,
`runLottery` caches and returns `Some(OutputAndProof)` exactly when the VRF
output, read as an unsigned big integer, is above the epoch threshold (the
comparison direction the repository's tests force), and caches and returns
`None` otherwise; with the threshold forced to its minimum value 0 it
returns a non-empty proof whenever the VRF output is nonzero. -/
theorem runLottery_threshold_rule (s : Session) (slot thr : Nat)
    (oap : OutputAndProof) (hc : s.slotToProof.lookup slot = none)
    (ht : s.epochThreshold = some thr) (hv : s.vrf slot = some oap) :
    runLottery s slot = .ok
      (if bytesToNat oap.output > thr then some oap else none,
        ⟨s.epochThreshold, s.authorityIndex,
          (slot, if bytesToNat oap.output > thr then some oap else none)
            :: s.slotToProof, s.vrf, s.vrfCalls + 1⟩) ∧
    (thr = 0 → bytesToNat oap.output ≠ 0 →
      lotteryOutcome (runLottery s slot) = some (some oap)) := by
  constructor
  · simp [runLottery, hc, ht, hv]
  · intro h0 hnz
    subst h0
    simp [runLottery, lotteryOutcome, hc, ht, hv, Nat.pos_of_ne_zero hnz]

/-- Witness for C2 (amended) at a concrete session: threshold 0, VRF output
byte `[5]`, slot 7; the lottery returns `Some` of that output and proof. -/
theorem runLottery_threshold_rule_witness :
    (([] : List (Nat × Option OutputAndProof)).lookup 7 = none) ∧
      bytesToNat [5] ≠ 0 ∧
      lotteryOutcome
        (runLottery ⟨some 0, 0, [], fun _ => some ⟨[5], [9]⟩, 0⟩ 7)
        = some (some ⟨[5], [9]⟩) :=
  ⟨rfl, by decide,
    (runLottery_threshold_rule ⟨some 0, 0, [], fun _ => some ⟨[5], [9]⟩, 0⟩
      7 0 ⟨[5], [9]⟩ rfl rfl rfl).2 rfl (by decide)⟩

/-- Fixed-width little-endian byte encoding of a natural number
(width in bytes first). -/
def natToLEBytes : Nat → Nat → List Nat
  | 0, _ => []
  | w + 1, n => n % 256 :: natToLEBytes w (n / 256)

/-- Reads a little-endian byte list back as a natural number. -/
def leBytesToNat (bytes : List Nat) : Nat :=
  bytes.foldr (fun b acc => acc * 256 + b) 0

/-- `natToLEBytes` always produces exactly its width in bytes. -/
theorem natToLEBytes_length : ∀ (w n : Nat), (natToLEBytes w n).length = w := by
  intro w
  induction w with
  | zero => intro n; rfl
  | succ v ih => intro n; simp [natToLEBytes, ih]

/-- Little-endian round trip for values below the width's capacity. -/
theorem leBytesToNat_natToLEBytes :
    ∀ (w n : Nat), n < 256 ^ w → leBytesToNat (natToLEBytes w n) = n := by
  intro w
  induction w with
  | zero =>
    intro n hn
    interval_cases n
    rfl
  | succ v ih =>
    intro n hn
    have hdiv : n / 256 < 256 ^ v := by
      rw [Nat.div_lt_iff_lt_mul (by norm_num)]
      calc n < 256 ^ (v + 1) := hn
        _ = 256 ^ v * 256 := by rw [pow_succ]
    have := ih (n / 256) hdiv
    simp only [natToLEBytes, leBytesToNat, List.foldr_cons] at *
    rw [this]
    omega

/-- The slot's eligibility evidence embedded in a block header
(spec section 3). -/
structure PreDigest where
  slotNumber : Nat
  authorityIndex : Nat
  vrfOutput : List Nat
  vrfProof : List Nat
deriving DecidableEq

/-- Error kind of the pre-digest codec (spec section 7). -/
inductive CodecError where
  | invalidLength
deriving DecidableEq

/-- Modelled from the spec: the canonical pre-digest encoding (spec section
6; `buildBlockPreDigest` and the `PreDigest` codec are not among the
provided sources, only their tests are):
`[slotNumber: u64 LE][authorityIndex: u32 LE][vrfOutput: 32][vrfProof: 64]`. -/
def encodePreDigest (p : PreDigest) : List Nat :=
  natToLEBytes 8 p.slotNumber ++
    (natToLEBytes 4 p.authorityIndex ++ (p.vrfOutput ++ p.vrfProof))

/-- Modelled from the spec: pre-digest decoding; a buffer whose length is
not the fixed 8 + 4 + 32 + 64 = 108 bytes is rejected. -/
def decodePreDigest (bytes : List Nat) : Except CodecError PreDigest :=
  if bytes.length = 108 then
    .ok ⟨leBytesToNat (bytes.take 8),
         leBytesToNat ((bytes.drop 8).take 4),
         (bytes.drop 12).take 32,
         (bytes.drop 44).take 64⟩
  else .error .invalidLength

/-- C3: pre-digest encoding round-trips — decoding an encoded `PreDigest`
(with in-range slot number and authority index and the fixed 32/64-byte
output and proof) recovers exactly the encoded tuple — and decoding any
buffer whose length is not 8 + 4 + 32 + 64 = 108 bytes is rejected with an
error. -/
theorem preDigest_roundtrip :
    (∀ p : PreDigest, p.slotNumber < 2 ^ 64 → p.authorityIndex < 2 ^ 32 →
      p.vrfOutput.length = 32 → p.vrfProof.length = 64 →
      decodePreDigest (encodePreDigest p) = .ok p) ∧
    (∀ bytes : List Nat, bytes.length ≠ 108 →
      decodePreDigest bytes = .error .invalidLength) := by
  constructor
  · intro p hs ha ho hp
    have hlen : (encodePreDigest p).length = 108 := by
      simp [encodePreDigest, natToLEBytes_length, ho, hp]
    have h8 : (natToLEBytes 8 p.slotNumber).length = 8 := natToLEBytes_length 8 _
    have h4 : (natToLEBytes 4 p.authorityIndex).length = 4 := natToLEBytes_length 4 _
    have htake8 : (encodePreDigest p).take 8 = natToLEBytes 8 p.slotNumber := by
      rw [encodePreDigest, List.take_left' h8]
    have hdrop8 : (encodePreDigest p).drop 8 =
        natToLEBytes 4 p.authorityIndex ++ (p.vrfOutput ++ p.vrfProof) := by
      rw [encodePreDigest, List.drop_left' h8]
    have hdrop12 : (encodePreDigest p).drop 12 = p.vrfOutput ++ p.vrfProof := by
      have : (12 : Nat) = 8 + 4 := by norm_num
      rw [this, ← List.drop_drop, hdrop8, List.drop_left' h4]
    have hdrop44 : (encodePreDigest p).drop 44 = p.vrfProof := by
      have : (44 : Nat) = 12 + 32 := by norm_num
      rw [this, ← List.drop_drop, hdrop12, List.drop_left' ho]
    rw [decodePreDigest, if_pos hlen, htake8, hdrop8, hdrop12, hdrop44,
      List.take_left' h4, List.take_left' ho,
      List.take_of_length_le (le_of_eq hp),
      leBytesToNat_natToLEBytes 8 _ (by simpa using hs),
      leBytesToNat_natToLEBytes 4 _ (by simpa using ha)]
  · intro bytes h
    simp [decodePreDigest, h]

/-- Witness for C3 at a concrete pre-digest (slot 300, authority 7) and at a
three-byte buffer, which is rejected. -/
theorem preDigest_roundtrip_witness :
    (300 : Nat) < 2 ^ 64 ∧ (7 : Nat) < 2 ^ 32 ∧
      (List.replicate 32 3).length = 32 ∧ (List.replicate 64 4).length = 64 ∧
      decodePreDigest (encodePreDigest
          ⟨300, 7, List.replicate 32 3, List.replicate 64 4⟩) =
        .ok ⟨300, 7, List.replicate 32 3, List.replicate 64 4⟩ ∧
      ([1, 2, 3] : List Nat).length ≠ 108 ∧
      decodePreDigest [1, 2, 3] = .error .invalidLength :=
  ⟨by decide, by decide, by decide, by decide,
    preDigest_roundtrip.1 ⟨300, 7, List.replicate 32 3, List.replicate 64 4⟩
      (by decide) (by decide) (by decide) (by decide),
    by decide, preDigest_roundtrip.2 [1, 2, 3] (by decide)⟩

def xxMask : Nat := 2 ^ 64

def xxPrime1 : Nat := 11400714785074694791

def xxPrime2 : Nat := 14029467366897019727

def xxPrime3 : Nat := 1609587929392839161

def xxPrime4 : Nat := 9650029242287828579

def xxPrime5 : Nat := 2870177450012600261

/-- 64-bit wrapping addition. -/
def xxAdd (a b : Nat) : Nat := (a + b) % xxMask

/-- 64-bit wrapping multiplication. -/
def xxMul (a b : Nat) : Nat := (a * b) % xxMask

/-- 64-bit left rotation. -/
def xxRotl (x r : Nat) : Nat :=
  (((x <<< r) % xxMask) ||| (x >>> (64 - r))) % xxMask

/-- One xxHash64 accumulator round. -/
def xxRound (acc input : Nat) : Nat :=
  xxMul (xxRotl (xxAdd acc (xxMul input xxPrime2)) 31) xxPrime1

/-- The xxHash64 accumulator merge step of the long-input path. -/
def xxMergeRound (acc val : Nat) : Nat :=
  xxAdd (xxMul (acc ^^^ xxRound 0 val) xxPrime1) xxPrime4

/-- One 32-byte xxHash64 stripe applied to the four accumulators. -/
def xxStripe (v : Nat × Nat × Nat × Nat) (chunk : List Nat) :
    Nat × Nat × Nat × Nat :=
  (xxRound v.1 (leBytesToNat (chunk.take 8)),
   xxRound v.2.1 (leBytesToNat ((chunk.drop 8).take 8)),
   xxRound v.2.2.1 (leBytesToNat ((chunk.drop 16).take 8)),
   xxRound v.2.2.2 (leBytesToNat ((chunk.drop 24).take 8)))

/-- Consumes the given number of 32-byte stripes. -/
def xxStripesGo : Nat → (Nat × Nat × Nat × Nat) → List Nat →
    ((Nat × Nat × Nat × Nat) × List Nat)
  | 0, v, l => (v, l)
  | n + 1, v, l => xxStripesGo n (xxStripe v (l.take 32)) (l.drop 32)

/-- Consumes the given number of 8-byte tail words. -/
def xxTail8Go : Nat → Nat → List Nat → Nat × List Nat
  | 0, h, l => (h, l)
  | n + 1, h, l =>
    xxTail8Go n
      (xxAdd (xxMul (xxRotl (h ^^^ xxRound 0 (leBytesToNat (l.take 8))) 27)
        xxPrime1) xxPrime4)
      (l.drop 8)

/-- The final xxHash64 avalanche mix. -/
def xxAvalanche (h : Nat) : Nat :=
  let h1 := xxMul (h ^^^ (h >>> 33)) xxPrime2
  let h2 := xxMul (h1 ^^^ (h1 >>> 29)) xxPrime3
  h2 ^^^ (h2 >>> 32)

/-- The seeded xxHash64 digest of a byte list, as computed by the
`OneOfOne/xxhash` library that the source's `twoxHash` calls (an external
dependency of the repository; implemented here from the public XXH64
algorithm and checked against its published test vectors). -/
def xxHash64 (seed : Nat) (msg : List Nat) : Nat :=
  let len := msg.length
  let start :=
    if 32 ≤ len then
      let v0 := (xxAdd (xxAdd seed xxPrime1) xxPrime2, xxAdd seed xxPrime2,
        seed % xxMask, (seed % xxMask + (xxMask - xxPrime1)) % xxMask)
      let sr := xxStripesGo (len / 32) v0 msg
      let v := sr.1
      let h := xxAdd (xxAdd (xxAdd (xxRotl v.1 1) (xxRotl v.2.1 7))
        (xxRotl v.2.2.1 12)) (xxRotl v.2.2.2 18)
      let h := xxMergeRound h v.1
      let h := xxMergeRound h v.2.1
      let h := xxMergeRound h v.2.2.1
      let h := xxMergeRound h v.2.2.2
      (h, sr.2)
    else (xxAdd seed xxPrime5, msg)
  let h := xxAdd start.1 len
  let t8 := xxTail8Go (start.2.length / 8) h start.2
  let t4 :=
    if 4 ≤ t8.2.length then
      (xxAdd (xxMul (xxRotl (t8.1 ^^^ xxMul (leBytesToNat (t8.2.take 4))
        xxPrime1) 23) xxPrime2) xxPrime3, t8.2.drop 4)
    else t8
  let hb := t4.2.foldl
    (fun h b => xxMul (xxRotl (h ^^^ xxMul (b % 256) xxPrime5) 11) xxPrime1)
    t4.1
  xxAvalanche hb

/-- The published XXH64 test vectors hold for this implementation:
`XXH64("") = 0xEF46DB3751D8E999`, `XXH64("a") = 0xD24EC4F1A98C6E5B`,
`XXH64("Nobody inspects the spammish repetition") = 0xFBCEA83C8A378BF1`. -/
theorem xxHash64_test_vectors :
    xxHash64 0 [] = 0xEF46DB3751D8E999 ∧
      xxHash64 0 [97] = 0xD24EC4F1A98C6E5B ∧
      xxHash64 0 [78, 111, 98, 111, 100, 121, 32, 105, 110, 115, 112, 101,
        99, 116, 115, 32, 116, 104, 101, 32, 115, 112, 97, 109, 109, 105,
        115, 104, 32, 114, 101, 112, 101, 116, 105, 116, 105, 111, 110] =
        0xFBCEA83C8A378BF1 := by
  refine ⟨by decide, by decide, by decide⟩

/-- `twoxHash` (genesis package source): the concatenation of the
little-endian encodings of the xxHash64 digests of the message with seeds
0 and 1. -/
def twoxHash (msg : List Nat) : List Nat :=
  natToLEBytes 8 (xxHash64 0 msg) ++ natToLEBytes 8 (xxHash64 1 msg)

/-- The bytes of an ASCII string, as natural numbers (for ASCII text the
code points coincide with the UTF-8 bytes Go operates on). -/
def strBytes (s : String) : List Nat :=
  s.data.map Char.toNat

/-- ASCII upper-casing (Go `unicode.ToTitle` restricted to ASCII). -/
def asciiToUpper (c : Nat) : Nat :=
  if 97 ≤ c ∧ c ≤ 122 then c - 32 else c

/-- Go's `isSeparator` on ASCII bytes, the word-boundary test of
`strings.Title`: letters, digits and underscore continue a word, anything
else separates words. -/
def goIsSeparator (c : Nat) : Bool :=
  !((48 ≤ c && c ≤ 57) || (65 ≤ c && c ≤ 90) || (97 ≤ c && c ≤ 122) ||
    c == 95)

/-- Worker of `goTitle`; the flag records whether the previous byte was a
word separator (initially true). -/
def goTitleAux : Bool → List Nat → List Nat
  | _, [] => []
  | prevSep, c :: rest =>
    (if prevSep then asciiToUpper c else c) :: goTitleAux (goIsSeparator c) rest

/-- Go `strings.Title` over ASCII bytes: upper-cases every letter that
begins a word. -/
def goTitle (s : List Nat) : List Nat := goTitleAux true s

/-- Go `strings.Trim(s, " ")`: strips leading and trailing spaces (trailing
first here; the order is immaterial). -/
def trimSpaces (s : List Nat) : List Nat :=
  ((s.reverse.dropWhile (fun c => c == 32)).reverse).dropWhile (fun c => c == 32)

/-- The source's key joining (`fKey = fKey + v + " "` over the path
elements): every element followed by one space. -/
def joinKey : List (List Nat) → List Nat
  | [] => []
  | k :: ks => k ++ (32 :: joinKey ks)

/-- The hex character (lower case) of a value below 16. -/
def hexDigitChar (n : Nat) : Nat := if n < 10 then 48 + n else 87 + n

/-- `common.BytesToHex`: `0x` followed by the lower-case hex encoding. -/
def bytesToHex (b : List Nat) : List Nat :=
  48 :: 120 :: b.foldr
    (fun x acc => hexDigitChar (x / 16 % 16) :: hexDigitChar (x % 16) :: acc) []

/-- `formatKey` (genesis package source): the two canonical storage-key
paths map to fixed literal keys (`:grandpa_authorities`, `:code`); every
other path is joined with a trailing space per element, trimmed of
leading/trailing spaces, title-cased, double-xxHashed and hex-encoded. -/
def formatKey (key : List (List Nat)) : List Nat :=
  if key = [strBytes "grandpa", strBytes "authorities"] then
    bytesToHex (strBytes ":grandpa_authorities")
  else if key = [strBytes "system", strBytes "code"] then
    bytesToHex (strBytes ":code")
  else
    bytesToHex (twoxHash (goTitle (trimSpaces (joinKey key))))

/-- The claim's "space-joined" path string: elements separated by single
spaces, with no trailing space. -/
def spaceJoin : List (List Nat) → List Nat
  | [] => []
  | [k] => k
  | k :: ks => k ++ (32 :: spaceJoin ks)

/-- The source's join is the space-join followed by one trailing space. -/
theorem joinKey_eq_spaceJoin_append :
    ∀ k ks, joinKey (k :: ks) = spaceJoin (k :: ks) ++ [32] := by
  intro k ks
  induction ks generalizing k with
  | nil => simp [joinKey, spaceJoin]
  | cons k' ks' ih =>
    show k ++ (32 :: joinKey (k' :: ks')) = spaceJoin (k :: k' :: ks') ++ [32]
    rw [ih k']
    simp [spaceJoin, List.append_assoc]

/-- Trimming absorbs a trailing space. -/
theorem trimSpaces_append_space (s : List Nat) :
    trimSpaces (s ++ [32]) = trimSpaces s := by
  simp [trimSpaces, List.dropWhile]

/-- Trimming the source's join and trimming the space-join agree. -/
theorem trimSpaces_joinKey (key : List (List Nat)) :
    trimSpaces (joinKey key) = trimSpaces (spaceJoin key) := by
  cases key with
  | nil => rfl
  | cons k ks => rw [joinKey_eq_spaceJoin_append, trimSpaces_append_space]

/-- C10 counterexample: for the one-element path whose element is the two
bytes `"a "` (a trailing space), `formatKey` hashes the trimmed string
`"A"`, not the space-joined string `"a "` (title-cased `"A "`) the claim
prescribes, and the two hex digests differ. -/
theorem formatKey_spaceJoin_counterexample :
    ([[97, 32]] : List (List Nat)) ≠ [strBytes "grandpa", strBytes "authorities"] ∧
      ([[97, 32]] : List (List Nat)) ≠ [strBytes "system", strBytes "code"] ∧
      formatKey [[97, 32]] ≠
        bytesToHex (twoxHash (goTitle (spaceJoin [[97, 32]]))) := by
  refine ⟨by decide, by decide, by decide⟩

/-- C10 (amended): `formatKey` maps `["grandpa","authorities"]` to the hex
encoding of the bytes `":grandpa_authorities"`, maps `["system","code"]`
to the hex encoding of the bytes `":code"`, and maps every other key path
to the hex encoding of the 16-byte concatenation of the little-endian
xxHash64 digests with seeds 0 and 1 of the space-joined path string,
trimmed of leading and trailing spaces and then title-cased. -/
theorem formatKey_spec (key : List (List Nat))
    (h1 : key ≠ [strBytes "grandpa", strBytes "authorities"])
    (h2 : key ≠ [strBytes "system", strBytes "code"]) :
    formatKey [strBytes "grandpa", strBytes "authorities"] =
      bytesToHex (strBytes ":grandpa_authorities") ∧
    formatKey [strBytes "system", strBytes "code"] =
      bytesToHex (strBytes ":code") ∧
    formatKey key =
      bytesToHex (twoxHash (goTitle (trimSpaces (spaceJoin key)))) := by
  refine ⟨by simp [formatKey], ?_, ?_⟩
  · rw [formatKey, if_neg (by decide), if_pos rfl]
  · rw [formatKey, if_neg h1, if_neg h2, trimSpaces_joinKey]

/-- Witness for C10 (amended) at the path `["babe","authorities"]`, which
hits the hashing branch. -/
theorem formatKey_spec_witness :
    ([strBytes "babe", strBytes "authorities"] : List (List Nat)) ≠
        [strBytes "grandpa", strBytes "authorities"] ∧
      ([strBytes "babe", strBytes "authorities"] : List (List Nat)) ≠
        [strBytes "system", strBytes "code"] ∧
      formatKey [strBytes "babe", strBytes "authorities"] =
        bytesToHex (twoxHash (goTitle (trimSpaces
          (spaceJoin [strBytes "babe", strBytes "authorities"])))) :=
  ⟨by decide, by decide,
    (formatKey_spec [strBytes "babe", strBytes "authorities"]
      (by decide) (by decide)).2.2⟩

/-- Modelled from the spec: the `crypto.Sr25519Type` key-type constant of
`lib/crypto` (not among the provided sources); its concrete value is
immaterial to the claims about `determineKeyType`. -/
def Sr25519Type : String := "sr25519"

/-- `determineKeyType` (dot/rpc/modules/author.go): maps each of the seven
recognized key-type identifiers to `crypto.Sr25519Type` and every other
string to the sentinel string `"unknown keytype"`. -/
def determineKeyType (t : String) : String :=
  if t = "babe" then Sr25519Type
  else if t = "gran" then Sr25519Type
  else if t = "acco" then Sr25519Type
  else if t = "aura" then Sr25519Type
  else if t = "imon" then Sr25519Type
  else if t = "audi" then Sr25519Type
  else if t = "dumy" then Sr25519Type
  else "unknown keytype"

/-- C9: `determineKeyType` is total and never fails: each of the seven
recognized identifiers maps to `crypto.Sr25519Type`, and every other input
string maps to the sentinel string value `"unknown keytype"`. -/
theorem determineKeyType_total :
    (∀ t ∈ (["babe", "gran", "acco", "aura", "imon", "audi", "dumy"] :
        List String), determineKeyType t = Sr25519Type) ∧
    (∀ t : String,
      t ∉ (["babe", "gran", "acco", "aura", "imon", "audi", "dumy"] :
        List String) → determineKeyType t = "unknown keytype") := by
  constructor
  · intro t ht
    fin_cases ht <;> rfl
  · intro t ht
    simp only [List.mem_cons, List.not_mem_nil, or_false, not_or] at ht
    obtain ⟨h1, h2, h3, h4, h5, h6, h7⟩ := ht
    simp [determineKeyType, h1, h2, h3, h4, h5, h6, h7]

/-- Witness for C9: `"babe"` maps to `Sr25519Type` and the unrecognized
`"foo"` maps to the sentinel. -/
theorem determineKeyType_total_witness :
    ("babe" : String) ∈ (["babe", "gran", "acco", "aura", "imon", "audi",
        "dumy"] : List String) ∧
      determineKeyType "babe" = Sr25519Type ∧
      ("foo" : String) ∉ (["babe", "gran", "acco", "aura", "imon", "audi",
        "dumy"] : List String) ∧
      determineKeyType "foo" = "unknown keytype" :=
  ⟨by decide, determineKeyType_total.1 "babe" (by decide), by decide,
    determineKeyType_total.2 "foo" (by decide)⟩

end Gossamer
